import Mathlib

/-!
Verification development for the storage engine of an embedded key/record
data store (Rust sources: `src/db/storage.rs`, `src/db/schema.rs`,
`src/utils/error.rs`).

The Rust code is shallowly embedded: the `RwLock`/`Arc`-protected
`HashMap<String, CollectionStorage>` registry is modelled as an association
list with explicit state passing (lock acquisition never fails in the model;
the spec treats lock poisoning as a fatal out-of-model condition), Rust's
`i32` indices are `Int` with the `as usize` cast made explicit modulo `2^64`,
and `f64` values are modelled as exact-decimal mantissa/exponent pairs plus
the non-finite values (infinities and NaN), which serde_json serializes as
`null` and then fails to reload.  Operations that can panic in Rust
(out-of-bounds `Vec` indexing and `Vec::remove`) are given an explicit
`panicked` outcome.
-/

namespace RustDBMS

/-- Model of an `f64` value: a finite value at exact decimal precision
(`man * 10 ^ exp`), a signed infinity, or NaN.  Equality of finite values
is structural (representation-level), which is finer than numeric
equality; all theorems below only ever need that the codec and parser
preserve the representation exactly. -/
inductive F64 where
  | finite (man : Int) (exp : Int)
  | inf (neg : Bool)
  | nan
deriving DecidableEq, Repr

/-- Model of `chrono::NaiveDate` as year/month/day fields (years 0–9999,
the range serialized as zero-padded 4-digit years). -/
structure Date where
  year : Nat
  month : Nat
  dayOfMonth : Nat
deriving DecidableEq, Repr

/-- The `Value` enum of `src/db/schema.rs`: Integer(i32), Float(f64),
Bool, Text, Date.  The `i32` payload is carried as `Int`; the range
invariant `-2^31 ≤ n < 2^31` is tracked by `valueValidb`. -/
inductive Value where
  | Integer (n : Int)
  | Float (f : F64)
  | Bool (b : Bool)
  | Text (s : String)
  | Date (d : Date)
deriving DecidableEq, Repr

/-- The `Record` struct of `src/db/schema.rs`: an ordered sequence of values. -/
structure Record where
  values : List Value
deriving DecidableEq, Repr

/-- The `CollectionStorage` struct: a name plus the record sequence
(the `RwLock` around `data` is elided; the model is sequential). -/
structure CollectionStorage where
  name : String
  data : List Record
deriving DecidableEq, Repr

/-- The registry field `collections : RwLock<HashMap<String, Arc<CollectionStorage>>>`
of `StorageEngine`, modelled as an association list standing for the map. -/
abbrev Registry := List (String × CollectionStorage)

/-- The `DBError` enum of `src/utils/error.rs`. -/
inductive DBError where
  | StorageError (msg : String)
  | OperationError (msg : String)
  | QueryError (msg : String)
  | SchemaError (msg : String)
  | GeneralError (msg : String)
deriving DecidableEq, Repr

/-! ### Value parsing (`StorageEngine::parse_value`)

The Rust implementation tries `s.parse::<bool>()`, then `s.parse::<i32>()`,
then `s.parse::<f64>()`, then `s.parse::<String>()`.  The standard-library
parsers are modelled faithfully below: `bool` accepts exactly "true"/"false";
`i32` accepts an optional sign followed by one or more ASCII digits, within
the 32-bit signed range; `f64` accepts the case-insensitive non-finite
literals `inf`/`infinity`/`nan` and the finite-decimal grammar
`sign? (digits .? digits? | . digits) ( (e|E) sign? digits )?`;
`String::from_str` is infallible. -/

/-- Digit chars to the number they denote, most significant first
(leading zeros allowed). -/
def digitsToNat (ds : List Char) : Nat :=
  ds.foldl (fun a c => 10 * a + (c.toNat - 48)) 0

/-- Strip an optional leading `+`/`-`, returning the sign as `1`/`-1`. -/
def parseSign : List Char → Int × List Char
  | '+' :: r => (1, r)
  | '-' :: r => (-1, r)
  | cs => (1, cs)

/-- Model of Rust `str::parse::<bool>`. -/
def parseRustBool (s : String) : Option Bool :=
  if s = "true" then some true
  else if s = "false" then some false
  else none

/-- Model of Rust `str::parse::<i32>`: optional sign, one or more digits,
result within `[-2^31, 2^31)`. -/
def parseRustI32 (s : String) : Option Int :=
  let (sg, ds) := parseSign s.data
  if ds ≠ [] ∧ ds.all Char.isDigit then
    let v : Int := sg * (digitsToNat ds : Int)
    if -(2 ^ 31) ≤ v ∧ v < 2 ^ 31 then some v else none
  else none

/-- The optional exponent tail of a float literal: empty, or `e`/`E`
followed by an optional sign and one or more digits. -/
def parseExpPart : List Char → Option Int
  | [] => some 0
  | c :: r =>
    if c = 'e' ∨ c = 'E' then
      let (sg, ds) := parseSign r
      if ds ≠ [] ∧ ds.all Char.isDigit then some (sg * (digitsToNat ds : Int))
      else none
    else none

/-- Model of Rust `str::parse::<f64>`: an optional sign, then either a
case-insensitive `inf`/`infinity`/`nan` literal or the finite-decimal
grammar, whose exact decimal value is kept as mantissa/exponent. -/
def parseRustF64 (s : String) : Option F64 :=
  let (sg, r1) := parseSign s.data
  let lower := r1.map Char.toLower
  if lower = "inf".data ∨ lower = "infinity".data then
    some (.inf (decide (sg = -1)))
  else if lower = "nan".data then some .nan
  else
    let intd := r1.takeWhile Char.isDigit
    match r1.dropWhile Char.isDigit with
    | '.' :: r3 =>
      let fracd := r3.takeWhile Char.isDigit
      if intd = [] ∧ fracd = [] then none
      else
        match parseExpPart (r3.dropWhile Char.isDigit) with
        | some e => some (.finite (sg * (digitsToNat (intd ++ fracd) : Int)) (e - fracd.length))
        | none => none
    | r2 =>
      if intd = [] then none
      else
        match parseExpPart r2 with
        | some e => some (.finite (sg * (digitsToNat intd : Int)) e)
        | none => none

/-- `StorageEngine::parse_value`: try bool, then i32, then f64, then
String (infallible), wrapping the first success; the final error branch
mirrors the unreachable `else` of the source. -/
def parse_value (s : String) : Except DBError Value :=
  match parseRustBool s with
  | some b => .ok (.Bool b)
  | none =>
    match parseRustI32 s with
    | some i => .ok (.Integer i)
    | none =>
      match parseRustF64 s with
      | some f => .ok (.Float f)
      | none =>
        match (some s : Option String) with
        | some t => .ok (.Text t)
        | none => .error (.SchemaError "Something went wrong with parsing")

/-! ### Registry operations -/

/-- `HashMap::get` on the association-list model (first occurrence). -/
def lookupColl : Registry → String → Option CollectionStorage
  | [], _ => none
  | (k, c) :: r, n => if k = n then some c else lookupColl r n

/-- `HashMap::contains_key` on the model. -/
def containsKey (reg : Registry) (n : String) : Bool :=
  (lookupColl reg n).isSome

/-- Replace the record sequence of the named collection (the in-place
mutation through the collection's `RwLock<Vec<Record>>`). -/
def setCollData : Registry → String → List Record → Registry
  | [], _, _ => []
  | (k, c) :: r, n, d =>
    if k = n then (k, { c with data := d }) :: r
    else (k, c) :: setCollData r n d

/-- The `index as usize` cast applied to an `i32` index on a 64-bit
target: reduce modulo `2^64` (so negative indices wrap to huge values). -/
def asUsize (i : Int) : Nat := (i % 2 ^ 64).toNat

/-- Outcome of a registry operation: success or error (each with the
post-state of the registry), or a Rust panic. -/
inductive OpResult (α : Type) where
  | ok (val : α) (reg : Registry)
  | err (e : DBError) (reg : Registry)
  | panicked
deriving DecidableEq, Repr

/-- `StorageEngine::add_collection`: under the registry write lock, fail if
the name is present, otherwise insert an empty collection. -/
def add_collection (reg : Registry) (collection_name : String) : OpResult Unit :=
  if containsKey reg collection_name then
    .err (.StorageError "Collection already exists") reg
  else
    .ok () (reg ++ [(collection_name, ⟨collection_name, []⟩)])

/-- `StorageEngine::list_collections`: the key set (cloned), with the
source's explicit empty-map branch. -/
def list_collections (reg : Registry) : List String :=
  if reg.isEmpty then [] else reg.map Prod.fst

/-- `StorageEngine::update_record`: `old_data[index as usize] = record;
Ok(old_data[index as usize].clone())`.  Rust `Vec` indexing panics when
`index as usize` is out of bounds, hence the `panicked` outcome. -/
def update_record (reg : Registry) (collection_name : String) (index : Int)
    (record : Record) : OpResult Record :=
  match lookupColl reg collection_name with
  | some collection =>
    let i := asUsize index
    if h : i < collection.data.length then
      let newData := collection.data.set i record
      .ok (newData.get ⟨i, by simpa [newData] using h⟩)
        (setCollData reg collection_name newData)
    else .panicked
  | none => .err (.StorageError ("Unable to find record, " ++ toString index)) reg

/-- `StorageEngine::delete_record`: `Ok(record?.remove(index as usize))`.
`Vec::remove` shifts later elements down; it panics when the index is out
of bounds, hence the `panicked` outcome. -/
def delete_record (reg : Registry) (collection_name : String) (index : Int) :
    OpResult Record :=
  match lookupColl reg collection_name with
  | some collection =>
    let i := asUsize index
    if h : i < collection.data.length then
      .ok (collection.data.get ⟨i, h⟩)
        (setCollData reg collection_name (collection.data.eraseIdx i))
    else .panicked
  | none =>
    .err (.StorageError ("Unable to find record to delete at " ++ toString index)) reg

/-! ### Persistence codec (`load_from_file` / `save_to_file` / `create_empty_file`)

The on-disk snapshot is a JSON document mapping each collection name to a
`CollectionStorageHelper` object `{"name": ..., "data": [...]}`; records are
`{"values": [...]}` and values use serde's externally-tagged enum encoding
(`{"Integer": 42}`, `{"Float": 3.14}`, `{"Bool": true}`, `{"Text": "..."}`,
`{"Date": "YYYY-MM-DD"}`).  The codec is modelled at the level of a JSON
syntax tree: the filesystem maps paths to `Json` documents, and
`serde_json::from_str` / `to_string` become `decodeTop` / `encodeTop`.
JSON numbers keep serde's integer/float distinction; serde_json writes a
non-finite `f64` as `null`, which then fails to deserialize back into an
`f64`. -/

/-- JSON document tree (numbers split into integer and decimal-float forms,
as in `serde_json::Number`; a float literal is the exact decimal
`man * 10 ^ exp`). -/
inductive Json where
  | jnull
  | jbool (b : Bool)
  | jint (n : Int)
  | jnum (man : Int) (exp : Int)
  | jstr (s : String)
  | jarr (xs : List Json)
  | jobj (fields : List (String × Json))

/-- Decode every element of a list, failing if any element fails
(serde's sequence deserialization). -/
def mapOption (f : α → Option β) : List α → Option (List β)
  | [] => some []
  | a :: r =>
    match f a, mapOption f r with
    | some b, some bs => some (b :: bs)
    | _, _ => none

/-- Decimal digit characters of `n`, most significant first, no leading
zeros (one `'0'` for zero). -/
def natDigits (n : Nat) : List Char :=
  if _h : n < 10 then [Char.ofNat (48 + n)]
  else natDigits (n / 10) ++ [Char.ofNat (48 + n % 10)]
decreasing_by exact Nat.div_lt_self (by omega) (by omega)

/-- Left-pad a digit string with `'0'` to width `k`. -/
def padZeros (k : Nat) (ds : List Char) : List Char :=
  List.replicate (k - ds.length) '0' ++ ds

/-- `n` printed as exactly `k` zero-padded decimal digits (for `n < 10^k`). -/
def natToPadded (k n : Nat) : List Char := padZeros k (natDigits n)

/-- `chrono::NaiveDate`'s `%Y-%m-%d` display used by its serde
serialization: zero-padded 4-digit year, 2-digit month and day. -/
def dateToIso (d : Date) : String :=
  ⟨natToPadded 4 d.year ++ '-' :: (natToPadded 2 d.month ++ '-' :: natToPadded 2 d.dayOfMonth)⟩

/-- Parse a `YYYY-MM-DD` date string back (the inverse used by
`chrono::NaiveDate`'s serde deserialization; range checks mirror the
model's date validity). -/
def parseIsoDate (s : String) : Option Date :=
  let cs := s.data
  let yd := cs.takeWhile (fun c => c ≠ '-')
  match cs.dropWhile (fun c => c ≠ '-') with
  | '-' :: r2 =>
    let md := r2.takeWhile (fun c => c ≠ '-')
    match r2.dropWhile (fun c => c ≠ '-') with
    | '-' :: dd =>
      if yd ≠ [] ∧ yd.all Char.isDigit ∧ md ≠ [] ∧ md.all Char.isDigit ∧
          dd ≠ [] ∧ dd.all Char.isDigit then
        let y := digitsToNat yd
        let mo := digitsToNat md
        let da := digitsToNat dd
        if y ≤ 9999 ∧ 1 ≤ mo ∧ mo ≤ 12 ∧ 1 ≤ da ∧ da ≤ 31 then
          some ⟨y, mo, da⟩
        else none
      else none
    | _ => none
  | _ => none

/-- Dates the model serializes/parses (chrono's own validity is stricter
per month; a weaker bound only strengthens the round-trip theorem). -/
def dateValidb (d : Date) : Bool :=
  decide (d.year ≤ 9999) && decide (1 ≤ d.month) && decide (d.month ≤ 12) &&
    decide (1 ≤ d.dayOfMonth) && decide (d.dayOfMonth ≤ 31)

/-- Values the snapshot codec round-trips: `Integer` payloads fit in
`i32` (the Rust typing invariant), dates are valid, and floats are
finite — a non-finite float is representable in the program but
serializes as `null` and cannot be reloaded. -/
def valueValidb : Value → Bool
  | .Integer n => decide (-(2 ^ 31) ≤ n) && decide (n < 2 ^ 31)
  | .Float (.finite _ _) => true
  | .Float _ => false
  | .Date d => dateValidb d
  | _ => true

/-- All values of a record are valid. -/
def recordValidb (r : Record) : Bool := r.values.all valueValidb

/-- All records of every collection in the registry are valid. -/
def registryValidb (reg : Registry) : Bool :=
  reg.all (fun p => p.2.data.all recordValidb)

/-- serde's externally-tagged encoding of `Value`; a non-finite float is
written as `null` (serde_json's `serialize_f64` on inf/NaN). -/
def encodeValue : Value → Json
  | .Integer n => .jobj [("Integer", .jint n)]
  | .Float (.finite m e) => .jobj [("Float", .jnum m e)]
  | .Float _ => .jobj [("Float", .jnull)]
  | .Bool b => .jobj [("Bool", .jbool b)]
  | .Text s => .jobj [("Text", .jstr s)]
  | .Date d => .jobj [("Date", .jstr (dateToIso d))]

/-- serde's decoding of `Value` (an `i32` payload must be in range; a
float payload may also be written as a JSON integer; `{"Float": null}`
falls through to the failure case, as deserializing an `f64` from `null`
errors). -/
def decodeValue : Json → Option Value
  | .jobj [("Integer", .jint n)] =>
    if -(2 ^ 31) ≤ n ∧ n < 2 ^ 31 then some (.Integer n) else none
  | .jobj [("Float", .jnum m e)] => some (.Float (.finite m e))
  | .jobj [("Float", .jint n)] => some (.Float (.finite n 0))
  | .jobj [("Bool", .jbool b)] => some (.Bool b)
  | .jobj [("Text", .jstr s)] => some (.Text s)
  | .jobj [("Date", .jstr s)] => (parseIsoDate s).map .Date
  | _ => none

/-- serde encoding of `Record`. -/
def encodeRecord (r : Record) : Json := .jobj [("values", .jarr (r.values.map encodeValue))]

/-- serde decoding of `Record`. -/
def decodeRecord : Json → Option Record
  | .jobj [("values", .jarr vs)] => (mapOption decodeValue vs).map Record.mk
  | _ => none

/-- serde encoding of `CollectionStorageHelper` (fields in declaration
order: `name`, `data`). -/
def encodeColl (c : CollectionStorage) : Json :=
  .jobj [("name", .jstr c.name), ("data", .jarr (c.data.map encodeRecord))]

/-- serde decoding of `CollectionStorageHelper`. -/
def decodeColl : Json → Option CollectionStorage
  | .jobj [("name", .jstr n), ("data", .jarr rs)] =>
    (mapOption decodeRecord rs).map (fun d => ⟨n, d⟩)
  | _ => none

/-- Serialization of the full registry
(`HashMap<String, CollectionStorageHelper>` as a JSON object). -/
def encodeTop (reg : Registry) : Json :=
  .jobj (reg.map (fun p => (p.1, encodeColl p.2)))

/-- Deserialization of the full registry; any shape mismatch fails
(serde_json's parse error). -/
def decodeTop : Json → Option Registry
  | .jobj fields =>
    mapOption (fun p => (decodeColl p.2).map (fun c => (p.1, c))) fields
  | _ => none

/-! ### Filesystem model and the load/save protocol -/

/-- The filesystem: paths to JSON documents (file creation and writes
succeed in the model; I/O failure is out of scope of the claims below). -/
abbrev FileSys := List (String × Json)

/-- Read the document at `path` (`fs::read_to_string` + successful parse,
`none` when the file is absent). -/
def fsRead : FileSys → String → Option Json
  | [], _ => none
  | (q, j) :: r, p => if q = p then some j else fsRead r p

/-- `File::create` + `write_all`: truncate-and-write the document at `path`. -/
def fsWrite : FileSys → String → Json → FileSys
  | [], p, j => [(p, j)]
  | (q, old) :: r, p, j =>
    if q = p then (p, j) :: r else (q, old) :: fsWrite r p j

/-- The persistent error surfaced by the load path when the snapshot
exists but does not deserialize (the spec's CorruptState). -/
inductive PersistError where
  | parseError
deriving DecidableEq, Repr

/-- Engine state: in-memory registry plus the filesystem it persists to. -/
structure EngineFS where
  registry : Registry
  fs : FileSys

/-- `StorageEngine::load_from_file`: if the file cannot be read, fall back
to `create_empty_file` (write `{}` and clear the registry) and succeed;
otherwise deserialize, failing (state unchanged) on a parse error, else
replace the whole registry under the write lock. -/
def load_from_file (st : EngineFS) (path : String) : EngineFS × Except PersistError Unit :=
  match fsRead st.fs path with
  | none => (⟨[], fsWrite st.fs path (.jobj [])⟩, .ok ())
  | some content =>
    match decodeTop content with
    | none => (st, .error .parseError)
    | some reg => (⟨reg, st.fs⟩, .ok ())

/-- `StorageEngine::save_to_file`: snapshot every collection, serialize the
helper map, truncate-and-write it to `path`. -/
def save_to_file (st : EngineFS) (path : String) : EngineFS × Except PersistError Unit :=
  (⟨st.registry, fsWrite st.fs path (encodeTop st.registry)⟩, .ok ())

/-! ### Decimal digit lemmas -/

theorem digitsToNat_append_singleton (ds : List Char) (c : Char) :
    digitsToNat (ds ++ [c]) = 10 * digitsToNat ds + (c.toNat - 48) := by
  simp [digitsToNat, List.foldl_append]

theorem charOfNat_digit_toNat (k : Nat) (h : k < 10) :
    (Char.ofNat (48 + k)).toNat = 48 + k := by
  interval_cases k <;> rfl

theorem digitsToNat_natDigits (n : Nat) : digitsToNat (natDigits n) = n := by
  induction n using Nat.strong_induction_on with
  | _ n ih =>
    rw [natDigits]
    split
    · rename_i h
      interval_cases n <;> rfl
    · rename_i h
      rw [digitsToNat_append_singleton, ih (n / 10) (Nat.div_lt_self (by omega) (by omega)),
        charOfNat_digit_toNat (n % 10) (Nat.mod_lt _ (by omega))]
      omega

theorem natDigits_ne_nil (n : Nat) : natDigits n ≠ [] := by
  rw [natDigits]; split <;> simp

theorem natDigits_all_digit (n : Nat) : ∀ c ∈ natDigits n, c.isDigit = true := by
  induction n using Nat.strong_induction_on with
  | _ n ih =>
    rw [natDigits]
    split
    · rename_i h
      intro c hc
      simp only [List.mem_singleton] at hc
      subst hc
      interval_cases n <;> decide
    · rename_i h
      intro c hc
      rcases List.mem_append.1 hc with hm | hm
      · exact ih (n / 10) (Nat.div_lt_self (by omega) (by omega)) c hm
      · simp only [List.mem_singleton] at hm
        subst hm
        have h10 : n % 10 < 10 := Nat.mod_lt _ (by omega)
        set k := n % 10 with hk
        interval_cases k <;> decide

theorem digitsToNat_cons_zero (l : List Char) :
    digitsToNat ('0' :: l) = digitsToNat l := rfl

theorem digitsToNat_replicate_zero (k : Nat) (ds : List Char) :
    digitsToNat (List.replicate k '0' ++ ds) = digitsToNat ds := by
  induction k with
  | zero => simp
  | succ k ih => simpa [List.replicate_succ, digitsToNat_cons_zero] using ih

theorem digitsToNat_padZeros (k : Nat) (ds : List Char) :
    digitsToNat (padZeros k ds) = digitsToNat ds :=
  digitsToNat_replicate_zero _ _

theorem padZeros_all_digit (k : Nat) (ds : List Char)
    (h : ∀ c ∈ ds, c.isDigit = true) : ∀ c ∈ padZeros k ds, c.isDigit = true := by
  intro c hc
  rcases List.mem_append.1 hc with hm | hm
  · rw [List.eq_of_mem_replicate hm]; decide
  · exact h c hm

theorem natToPadded_ne_nil (k n : Nat) : natToPadded k n ≠ [] := by
  intro h
  have := natDigits_ne_nil n
  simp only [natToPadded, padZeros, List.append_eq_nil] at h
  exact this h.2

theorem digitsToNat_natToPadded (k n : Nat) : digitsToNat (natToPadded k n) = n := by
  rw [natToPadded, digitsToNat_padZeros, digitsToNat_natDigits]

theorem natToPadded_all_digit (k n : Nat) :
    ∀ c ∈ natToPadded k n, c.isDigit = true :=
  padZeros_all_digit _ _ (natDigits_all_digit n)

/-! ### takeWhile / dropWhile over a delimited chunk -/

theorem takeWhile_append_cons (p : Char → Bool) (xs : List Char) (y : Char)
    (ys : List Char) (hx : ∀ x ∈ xs, p x = true) (hy : p y = false) :
    (xs ++ y :: ys).takeWhile p = xs := by
  induction xs with
  | nil => simp [List.takeWhile, hy]
  | cons a r ih =>
    simp only [List.cons_append, List.takeWhile]
    rw [hx a (by simp)]
    simp [ih (fun x hm => hx x (by simp [hm]))]

theorem dropWhile_append_cons (p : Char → Bool) (xs : List Char) (y : Char)
    (ys : List Char) (hx : ∀ x ∈ xs, p x = true) (hy : p y = false) :
    (xs ++ y :: ys).dropWhile p = y :: ys := by
  induction xs with
  | nil => simp [List.dropWhile, hy]
  | cons a r ih =>
    simp only [List.cons_append, List.dropWhile]
    rw [hx a (by simp)]
    simpa using ih (fun x hm => hx x (by simp [hm]))

theorem digit_ne_dash {c : Char} (h : c.isDigit = true) : (c ≠ '-') = True := by
  simp only [ne_eq, eq_iff_iff, iff_true]
  rintro rfl
  simp at h

theorem digit_p_dash {c : Char} (h : c.isDigit = true) :
    (fun c => decide (c ≠ '-')) c = true := by
  simp only [decide_eq_true_eq]
  rintro rfl
  simp at h

/-! ### Date round trip -/

theorem parseIsoDate_dateToIso (d : Date) (h : dateValidb d = true) :
    parseIsoDate (dateToIso d) = some d := by
  obtain ⟨y, mo, da⟩ := d
  simp only [dateValidb, Bool.and_eq_true, decide_eq_true_eq] at h
  obtain ⟨⟨⟨⟨hy, hm1⟩, hm2⟩, hd1⟩, hd2⟩ := h
  have hY := natToPadded_all_digit 4 y
  have hM := natToPadded_all_digit 2 mo
  have hD := natToPadded_all_digit 2 da
  have pY : ∀ c ∈ natToPadded 4 y, (fun c => decide (c ≠ '-')) c = true :=
    fun c hc => digit_p_dash (hY c hc)
  have pM : ∀ c ∈ natToPadded 2 mo, (fun c => decide (c ≠ '-')) c = true :=
    fun c hc => digit_p_dash (hM c hc)
  have pdash : (fun c => decide (c ≠ '-')) '-' = false := by decide
  simp only [parseIsoDate, dateToIso]
  rw [takeWhile_append_cons _ _ _ _ pY pdash, dropWhile_append_cons _ _ _ _ pY pdash]
  simp only
  rw [takeWhile_append_cons _ _ _ _ pM pdash, dropWhile_append_cons _ _ _ _ pM pdash]
  simp only [natToPadded_ne_nil, List.all_eq_true, digitsToNat_natToPadded,
    ne_eq, not_false_eq_true, true_and]
  rw [if_pos, if_pos]
  · exact ⟨hy, hm1, hm2, hd1, hd2⟩
  · exact ⟨hY, hM, hD⟩

/-! ### Codec round trip -/

theorem mapOption_map {α β : Type} (g : β → Option α) (f : α → β) (l : List α)
    (h : ∀ a ∈ l, g (f a) = some a) : mapOption g (l.map f) = some l := by
  induction l with
  | nil => rfl
  | cons a r ih =>
    simp only [List.map_cons, mapOption]
    rw [h a (by simp), ih (fun a hm => h a (by simp [hm]))]

theorem decodeValue_encodeValue (v : Value) (h : valueValidb v = true) :
    decodeValue (encodeValue v) = some v := by
  cases v with
  | Integer n =>
    simp only [valueValidb, Bool.and_eq_true, decide_eq_true_eq] at h
    simp only [encodeValue, decodeValue]
    rw [if_pos ⟨h.1, h.2⟩]
  | Float f => cases f with
    | finite m e => rfl
    | inf neg => simp [valueValidb] at h
    | nan => simp [valueValidb] at h
  | Bool b => rfl
  | Text s => rfl
  | Date d =>
    simp only [valueValidb] at h
    simp [encodeValue, decodeValue, parseIsoDate_dateToIso d h]

theorem decodeRecord_encodeRecord (r : Record) (h : recordValidb r = true) :
    decodeRecord (encodeRecord r) = some r := by
  obtain ⟨vs⟩ := r
  simp only [recordValidb, List.all_eq_true] at h
  simp only [encodeRecord, decodeRecord]
  rw [mapOption_map _ _ _ (fun v hm => decodeValue_encodeValue v (h v hm))]
  rfl

theorem decodeColl_encodeColl (c : CollectionStorage)
    (h : c.data.all recordValidb = true) : decodeColl (encodeColl c) = some c := by
  obtain ⟨n, d⟩ := c
  simp only [List.all_eq_true] at h
  simp only [encodeColl, decodeColl]
  rw [mapOption_map _ _ _ (fun r hm => decodeRecord_encodeRecord r (h r hm))]
  rfl

theorem decodeTop_encodeTop (reg : Registry) (h : registryValidb reg = true) :
    decodeTop (encodeTop reg) = some reg := by
  simp only [registryValidb, List.all_eq_true] at h
  simp only [encodeTop, decodeTop]
  rw [mapOption_map _ _ _ (fun p hm => ?_)]
  show (decodeColl (encodeColl p.2)).map (fun c => (p.1, c)) = some p
  rw [decodeColl_encodeColl p.2 (List.all_eq_true.mpr (h p hm))]
  rfl

/-! ### Filesystem lemmas -/

theorem fsRead_fsWrite (fs : FileSys) (p : String) (j : Json) :
    fsRead (fsWrite fs p j) p = some j := by
  induction fs with
  | nil => simp [fsWrite, fsRead]
  | cons q r ih =>
    simp only [fsWrite]
    split
    · simp [fsRead]
    · rename_i hq
      simpa [fsRead, hq] using ih

/-! ### Registry lookup lemmas -/

theorem lookupColl_setCollData_self (reg : Registry) (n : String)
    (c : CollectionStorage) (d : List Record) (h : lookupColl reg n = some c) :
    lookupColl (setCollData reg n d) n = some { c with data := d } := by
  induction reg with
  | nil => simp [lookupColl] at h
  | cons q r ih =>
    obtain ⟨k, c'⟩ := q
    simp only [lookupColl, setCollData] at h ⊢
    split at h
    · rename_i hk
      simp only [Option.some.injEq] at h
      subst h
      simp [hk, lookupColl]
    · rename_i hk
      simp only [if_neg hk, lookupColl, if_neg hk]
      exact ih h

theorem lookupColl_none_count (reg : Registry) (n : String)
    (h : lookupColl reg n = none) : (reg.map Prod.fst).count n = 0 := by
  induction reg with
  | nil => rfl
  | cons q r ih =>
    obtain ⟨k, c⟩ := q
    simp only [lookupColl] at h
    split at h
    · exact absurd h (by simp)
    · rename_i hk
      simp only [List.map_cons, List.count_cons, ih h]
      simp [hk]

theorem lookupColl_append_of_none (reg l : Registry) (n : String)
    (h : lookupColl reg n = none) : lookupColl (reg ++ l) n = lookupColl l n := by
  induction reg with
  | nil => rfl
  | cons q r ih =>
    obtain ⟨k, c⟩ := q
    simp only [lookupColl] at h
    split at h
    · exact absurd h (by simp)
    · rename_i hk
      simp only [List.cons_append, lookupColl, if_neg hk]
      exact ih h

/-! ### eraseIdx index shifting -/

theorem length_eraseIdx_lt {α : Type} (l : List α) (i : Nat) (h : i < l.length) :
    (l.eraseIdx i).length = l.length - 1 := by
  rw [List.eraseIdx_eq_take_drop_succ]
  simp only [List.length_append, List.length_take, List.length_drop]
  omega

theorem get_eraseIdx_of_lt {α : Type} (l : List α) (i j : Nat) (hi : i < l.length)
    (hj : j < i) :
    (l.eraseIdx i).get ⟨j, by rw [length_eraseIdx_lt l i hi]; omega⟩ =
      l.get ⟨j, by omega⟩ := by
  simp only [List.get_eq_getElem, List.eraseIdx_eq_take_drop_succ]
  rw [List.getElem_append_left (by simp; omega)]
  simp [List.getElem_take]

theorem get_eraseIdx_of_ge {α : Type} (l : List α) (i j : Nat) (hj : i ≤ j)
    (hj2 : j + 1 < l.length) :
    (l.eraseIdx i).get ⟨j, by rw [length_eraseIdx_lt l i (by omega)]; omega⟩ =
      l.get ⟨j + 1, hj2⟩ := by
  simp only [List.get_eq_getElem, List.eraseIdx_eq_take_drop_succ]
  rw [List.getElem_append_right (by simp; omega)]
  simp only [List.getElem_drop]
  congr 1
  simp only [List.length_take]
  omega

/-- The `i32 as usize` cast is the identity on small non-negative indices. -/
theorem asUsize_ofNat (i : Nat) (h : i < 2 ^ 64) : asUsize (i : Int) = i := by
  simp only [asUsize]
  rw [Int.emod_eq_of_lt (by omega) (by exact_mod_cast h)]
  rfl

/-- C1: the spec requires `update_record`/`delete_record` to fail with
NotFound on every out-of-bounds index (including negative ones) without
panicking; the code instead panics (`Vec` indexing / `Vec::remove` on an
out-of-bounds `index as usize`), so the claim marks a code bug.  This
theorem evaluates the embedded code at the failing inputs: an empty
collection `"c"` with indices `0` and `-1`, and a one-record collection
with index `1`. -/
theorem update_delete_out_of_bounds_panics :
    update_record [("c", ⟨"c", []⟩)] "c" 0 ⟨[.Integer 7]⟩ = .panicked ∧
    delete_record [("c", ⟨"c", []⟩)] "c" 0 = .panicked ∧
    update_record [("c", ⟨"c", []⟩)] "c" (-1) ⟨[.Integer 7]⟩ = .panicked ∧
    delete_record [("c", ⟨"c", []⟩)] "c" (-1) = .panicked ∧
    update_record [("c", ⟨"c", [⟨[.Integer 7]⟩]⟩)] "c" 1 ⟨[]⟩ = .panicked :=
  ⟨rfl, rfl, rfl, rfl, rfl⟩

/-- C2: for a present collection and an in-bounds index `i`,
`delete_record` succeeds, returns the record formerly at `i`, and the
collection's records become `eraseIdx i`: records below `i` keep their
index, records formerly above `i` move down by one. -/
theorem delete_record_in_bounds_shifts (reg : Registry) (n : String)
    (coll : CollectionStorage) (i : Nat) (hfind : lookupColl reg n = some coll)
    (h31 : i < 2 ^ 31) (hlt : i < coll.data.length) :
    delete_record reg n (i : Int) =
      .ok (coll.data.get ⟨i, hlt⟩) (setCollData reg n (coll.data.eraseIdx i)) ∧
    lookupColl (setCollData reg n (coll.data.eraseIdx i)) n =
      some { coll with data := coll.data.eraseIdx i } ∧
    (∀ j (hj : j < i),
      (coll.data.eraseIdx i).get ⟨j, by rw [length_eraseIdx_lt _ _ hlt]; omega⟩ =
        coll.data.get ⟨j, by omega⟩) ∧
    (∀ j (hj2 : j + 1 < coll.data.length), i ≤ j →
      (coll.data.eraseIdx i).get ⟨j, by rw [length_eraseIdx_lt _ _ hlt]; omega⟩ =
        coll.data.get ⟨j + 1, hj2⟩) := by
  refine ⟨?_, lookupColl_setCollData_self reg n coll _ hfind, ?_, ?_⟩
  · simp only [delete_record, hfind, asUsize_ofNat i (by omega), dif_pos hlt]
  · intro j hj
    exact get_eraseIdx_of_lt coll.data i j hlt hj
  · intro j hj2 hj
    exact get_eraseIdx_of_ge coll.data i j hj hj2

/-- C2 witness: deleting index 1 from `[1, 2, 3]` returns record `2` and
leaves `[1, 3]`. -/
theorem delete_record_in_bounds_shifts_witness :
    delete_record [("c", ⟨"c", [⟨[.Integer 1]⟩, ⟨[.Integer 2]⟩, ⟨[.Integer 3]⟩]⟩)] "c" 1 =
      .ok ⟨[.Integer 2]⟩ [("c", ⟨"c", [⟨[.Integer 1]⟩, ⟨[.Integer 3]⟩]⟩)] := by
  have h := (delete_record_in_bounds_shifts
    [("c", ⟨"c", [⟨[.Integer 1]⟩, ⟨[.Integer 2]⟩, ⟨[.Integer 3]⟩]⟩)] "c"
    ⟨"c", [⟨[.Integer 1]⟩, ⟨[.Integer 2]⟩, ⟨[.Integer 3]⟩]⟩ 1 rfl (by decide) (by decide)).1
  exact h

/-- C3: for a present collection and an in-bounds index `i`,
`update_record` stores the new record at index `i`, leaves every other
record of the collection unchanged, and returns the stored post-update
record. -/
theorem update_record_in_bounds_stores (reg : Registry) (n : String)
    (coll : CollectionStorage) (i : Nat) (record : Record)
    (hfind : lookupColl reg n = some coll) (h31 : i < 2 ^ 31)
    (hlt : i < coll.data.length) :
    update_record reg n (i : Int) record =
      .ok record (setCollData reg n (coll.data.set i record)) ∧
    lookupColl (setCollData reg n (coll.data.set i record)) n =
      some { coll with data := coll.data.set i record } ∧
    (coll.data.set i record).get ⟨i, by rw [List.length_set]; exact hlt⟩ = record ∧
    (∀ j (hj : j < coll.data.length), j ≠ i →
      (coll.data.set i record).get ⟨j, by rw [List.length_set]; exact hj⟩ =
        coll.data.get ⟨j, hj⟩) := by
  have hset : (coll.data.set i record).get ⟨i, by rw [List.length_set]; exact hlt⟩ = record := by
    simp
  refine ⟨?_, lookupColl_setCollData_self reg n coll _ hfind, hset, ?_⟩
  · have hau : asUsize (i : Int) = i := asUsize_ofNat i (by omega)
    simp only [update_record, hfind, hau]
    rw [dif_pos hlt, OpResult.ok.injEq]
    refine ⟨?_, rfl⟩
    simp [hau]
  · intro j hj hne
    simp [List.getElem_set_ne (fun h => hne h.symm)]

/-- C3 witness: updating index 1 of `[1, 2, 3]` with record `9` stores and
returns `9`, keeping records `1` and `3`. -/
theorem update_record_in_bounds_stores_witness :
    update_record [("c", ⟨"c", [⟨[.Integer 1]⟩, ⟨[.Integer 2]⟩, ⟨[.Integer 3]⟩]⟩)] "c" 1
        ⟨[.Integer 9]⟩ =
      .ok ⟨[.Integer 9]⟩ [("c", ⟨"c", [⟨[.Integer 1]⟩, ⟨[.Integer 9]⟩, ⟨[.Integer 3]⟩]⟩)] := by
  have h := (update_record_in_bounds_stores
    [("c", ⟨"c", [⟨[.Integer 1]⟩, ⟨[.Integer 2]⟩, ⟨[.Integer 3]⟩]⟩)] "c"
    ⟨"c", [⟨[.Integer 1]⟩, ⟨[.Integer 2]⟩, ⟨[.Integer 3]⟩]⟩ 1 ⟨[.Integer 9]⟩
    rfl (by decide) (by decide)).1
  exact h

/-- C4: for a name not present, `add_collection` succeeds and inserts an
empty collection, `list_collections` then contains the name exactly once,
and a second `add_collection` of the same name fails with the
already-exists error (`StorageError "Collection already exists"`, the
code's rendering of the spec's AlreadyExists) leaving the registry
unchanged. -/
theorem add_collection_fresh_then_duplicate (reg : Registry) (n : String)
    (hfind : lookupColl reg n = none) :
    add_collection reg n = .ok () (reg ++ [(n, ⟨n, []⟩)]) ∧
    lookupColl (reg ++ [(n, ⟨n, []⟩)]) n = some ⟨n, []⟩ ∧
    (list_collections (reg ++ [(n, ⟨n, []⟩)])).count n = 1 ∧
    add_collection (reg ++ [(n, ⟨n, []⟩)]) n =
      .err (.StorageError "Collection already exists") (reg ++ [(n, ⟨n, []⟩)]) := by
  have hcontains : containsKey reg n = false := by
    simp [containsKey, hfind]
  have hafter : lookupColl (reg ++ [(n, ⟨n, []⟩)]) n = some ⟨n, []⟩ := by
    rw [lookupColl_append_of_none _ _ _ hfind]
    simp [lookupColl]
  refine ⟨?_, hafter, ?_, ?_⟩
  · simp [add_collection, hcontains]
  · have hne : (reg ++ [(n, (⟨n, []⟩ : CollectionStorage))]).isEmpty = false := by
      cases reg <;> rfl
    simp only [list_collections, hne, Bool.false_eq_true, if_false, List.map_append,
      List.count_append, lookupColl_none_count reg n hfind]
    simp
  · have : containsKey (reg ++ [(n, ⟨n, []⟩)]) n = true := by
      simp [containsKey, hafter]
    simp [add_collection, this]

/-- C4 witness: adding `"users"` to a registry holding only `"a"`. -/
theorem add_collection_fresh_then_duplicate_witness :
    add_collection [("a", ⟨"a", []⟩)] "users" =
      .ok () [("a", ⟨"a", []⟩), ("users", ⟨"users", []⟩)] ∧
    (list_collections [("a", ⟨"a", []⟩), ("users", ⟨"users", []⟩)]).count "users" = 1 := by
  have h := add_collection_fresh_then_duplicate [("a", ⟨"a", []⟩)] "users" rfl
  exact ⟨h.1, h.2.2.1⟩

/-- C5: `parse_value` tries boolean, then 32-bit integer, then 64-bit
float, then raw text, the first success winning; concretely `"42"` parses
as `Integer 42`, `"3.14"` as `Float (314 × 10⁻²)` (the exact decimal
denoted by the literal `3.14`), `"true"` as `Bool true` and `"hello"` as
`Text "hello"`. -/
theorem parse_value_precedence :
    (∀ s b, parseRustBool s = some b → parse_value s = .ok (.Bool b)) ∧
    (∀ s i, parseRustBool s = none → parseRustI32 s = some i →
      parse_value s = .ok (.Integer i)) ∧
    (∀ s f, parseRustBool s = none → parseRustI32 s = none →
      parseRustF64 s = some f → parse_value s = .ok (.Float f)) ∧
    (∀ s, parseRustBool s = none → parseRustI32 s = none → parseRustF64 s = none →
      parse_value s = .ok (.Text s)) ∧
    parse_value "42" = .ok (.Integer 42) ∧
    parse_value "3.14" = .ok (.Float (.finite 314 (-2))) ∧
    parse_value "true" = .ok (.Bool true) ∧
    parse_value "hello" = .ok (.Text "hello") := by
  refine ⟨?_, ?_, ?_, ?_, rfl, rfl, rfl, rfl⟩
  · intro s b h
    simp [parse_value, h]
  · intro s i hb hi
    simp [parse_value, hb, hi]
  · intro s f hb hi hf
    simp [parse_value, hb, hi, hf]
  · intro s hb hi hf
    simp [parse_value, hb, hi, hf]

/-- C5 witness: the integer branch applied at `"-7"`. -/
theorem parse_value_precedence_witness : parse_value "-7" = .ok (.Integer (-7)) :=
  parse_value_precedence.2.1 "-7" (-7) rfl rfl

/-- C6: loading a path whose file is absent writes the empty document `{}`
to that path, leaves the in-memory registry empty, and succeeds. -/
theorem load_absent_bootstraps (st : EngineFS) (path : String)
    (h : fsRead st.fs path = none) :
    load_from_file st path = (⟨[], fsWrite st.fs path (.jobj [])⟩, .ok ()) ∧
    (load_from_file st path).1.registry = [] ∧
    fsRead (load_from_file st path).1.fs path = some (.jobj []) := by
  have h1 : load_from_file st path = (⟨[], fsWrite st.fs path (.jobj [])⟩, .ok ()) := by
    simp [load_from_file, h]
  refine ⟨h1, by rw [h1], ?_⟩
  rw [h1]
  exact fsRead_fsWrite st.fs path _

/-- C6 witness: a fresh engine loading the absent path `"DB.json"`. -/
theorem load_absent_bootstraps_witness :
    load_from_file ⟨[("x", ⟨"x", [⟨[.Bool true]⟩]⟩)], []⟩ "DB.json" =
      (⟨[], [("DB.json", .jobj [])]⟩, .ok ()) :=
  (load_absent_bootstraps ⟨[("x", ⟨"x", [⟨[.Bool true]⟩]⟩)], []⟩ "DB.json" rfl).1

/-- C7: loading a path whose file exists but does not deserialize to the
expected shape fails with the parse error (the spec's CorruptState) and
leaves the in-memory registry unchanged. -/
theorem load_corrupt_fails_unchanged (st : EngineFS) (path : String) (j : Json)
    (hr : fsRead st.fs path = some j) (hd : decodeTop j = none) :
    load_from_file st path = (st, .error .parseError) ∧
    (load_from_file st path).1.registry = st.registry := by
  have h1 : load_from_file st path = (st, .error .parseError) := by
    simp [load_from_file, hr, hd]
  exact ⟨h1, by rw [h1]⟩

/-- C7 witness: a file holding the JSON number `5` corrupts the load and
the one-collection registry survives untouched. -/
theorem load_corrupt_fails_unchanged_witness :
    load_from_file ⟨[("a", ⟨"a", []⟩)], [("db.json", .jint 5)]⟩ "db.json" =
      (⟨[("a", ⟨"a", []⟩)], [("db.json", .jint 5)]⟩, .error .parseError) :=
  (load_corrupt_fails_unchanged ⟨[("a", ⟨"a", []⟩)], [("db.json", .jint 5)]⟩
    "db.json" (.jint 5) rfl rfl).1

/-- C8 counterexample: the round trip fails for a reachable non-empty
registry containing a non-finite float (`Value::Float(f64::NAN)`, also
producible by `parse_value("nan")`): saving succeeds, but the float is
written as `{"Float": null}`, so the fresh engine's load fails with the
parse error and its registry stays empty rather than reproducing the
saved one. -/
theorem save_load_round_trip_nonfinite_counterexample :
    (save_to_file ⟨[("users", ⟨"users", [⟨[.Float .nan]⟩]⟩)], []⟩ "db.json").2 = .ok () ∧
    [("users", (⟨"users", [⟨[.Float .nan]⟩]⟩ : CollectionStorage))] ≠ [] ∧
    load_from_file
        ⟨[], (save_to_file ⟨[("users", ⟨"users", [⟨[.Float .nan]⟩]⟩)], []⟩ "db.json").1.fs⟩
        "db.json" =
      (⟨[], (save_to_file ⟨[("users", ⟨"users", [⟨[.Float .nan]⟩]⟩)], []⟩ "db.json").1.fs⟩,
        .error .parseError) :=
  ⟨rfl, by decide, rfl⟩

/-- C8 (amended): for any non-empty registry all of whose values survive
the snapshot codec — integers in `i32` range, valid dates, and only
*finite* floats — saving and loading the file back into a fresh engine
reproduces the registry exactly: same collection names mapping to the
same records in the same order.  (A registry holding a non-finite float
serializes it as `null` and the reload fails, see the counterexample.) -/
theorem save_load_round_trip (st : EngineFS) (path : String)
    (hv : registryValidb st.registry = true) (_hne : st.registry ≠ []) :
    (save_to_file st path).2 = .ok () ∧
    load_from_file ⟨[], (save_to_file st path).1.fs⟩ path =
      (⟨st.registry, (save_to_file st path).1.fs⟩, .ok ()) := by
  refine ⟨rfl, ?_⟩
  show load_from_file ⟨[], fsWrite st.fs path (encodeTop st.registry)⟩ path = _
  simp [load_from_file, fsRead_fsWrite, decodeTop_encodeTop _ hv, save_to_file]

/-- C8 witness: round trip of a registry holding every value variant. -/
theorem save_load_round_trip_witness :
    load_from_file
        ⟨[], (save_to_file ⟨[("users", ⟨"users",
          [⟨[.Integer 1, .Text "ann", .Bool true, .Float (.finite 314 (-2)), .Date ⟨2024, 2, 29⟩]⟩]⟩)],
          []⟩ "db.json").1.fs⟩ "db.json" =
      (⟨[("users", ⟨"users",
          [⟨[.Integer 1, .Text "ann", .Bool true, .Float (.finite 314 (-2)), .Date ⟨2024, 2, 29⟩]⟩]⟩)],
        (save_to_file ⟨[("users", ⟨"users",
          [⟨[.Integer 1, .Text "ann", .Bool true, .Float (.finite 314 (-2)), .Date ⟨2024, 2, 29⟩]⟩]⟩)],
          []⟩ "db.json").1.fs⟩, .ok ()) :=
  (save_load_round_trip ⟨[("users", ⟨"users",
      [⟨[.Integer 1, .Text "ann", .Bool true, .Float (.finite 314 (-2)), .Date ⟨2024, 2, 29⟩]⟩]⟩)], []⟩
    "db.json" (by decide) (by decide)).2

/-- C10: `parse_value` always returns `Ok` (the text fallback is
infallible, so the error branch is unreachable) and the value is a Bool,
Integer, Float or Text, never a Date. -/
theorem parse_value_total_no_date (s : String) :
    ∃ v, parse_value s = .ok v ∧ (∀ d, v ≠ .Date d) ∧
      ((∃ b, v = .Bool b) ∨ (∃ n, v = .Integer n) ∨ (∃ f, v = .Float f) ∨
        (∃ t, v = .Text t)) := by
  rcases hb : parseRustBool s with _ | b
  · rcases hi : parseRustI32 s with _ | i
    · rcases hf : parseRustF64 s with _ | f
      · exact ⟨.Text s, by simp [parse_value, hb, hi, hf], by simp,
          Or.inr (Or.inr (Or.inr ⟨s, rfl⟩))⟩
      · exact ⟨.Float f, by simp [parse_value, hb, hi, hf], by simp,
          Or.inr (Or.inr (Or.inl ⟨f, rfl⟩))⟩
    · exact ⟨.Integer i, by simp [parse_value, hb, hi], by simp,
        Or.inr (Or.inl ⟨i, rfl⟩)⟩
  · exact ⟨.Bool b, by simp [parse_value, hb], by simp, Or.inl ⟨b, rfl⟩⟩

end RustDBMS
